import Mathlib

/-!
Verification of `advanced_patterns.py` (retry decorator and generator pipeline)
against its specification.

The Python code is shallowly embedded:

* A Python callable that may raise is modelled as `PyFunc`: its `call` field
  maps the invocation count (0-based) to the outcome of that invocation,
  either `Except.ok v` (a returned value) or `Except.error e` (a raised
  exception).  The mutable state a flaky operation keeps between calls is
  captured by indexing outcomes with the invocation count.
* Exceptions are `Exn`: `connectionError msg` models `ConnectionError(msg)`,
  `other kind msg` models any other exception class.  The `except
  ConnectionError` clause of the code catches exactly `connectionError`.
* The `wrapper` closure of the `retry` decorator is embedded as a recursion
  on `attempts_left`, which in the source starts at `max_attempts` and is
  decremented exactly once per caught `ConnectionError`.  `max_attempts` is
  an `Int` (a Python int may be non-positive); the loop guard
  `while attempts_left > 0` makes `Int.toNat max_attempts` the exact number
  of remaining loop entries.
* The observable effects of one call of the wrapped function are collected
  in `WrapOutput`: the Python return/raise behaviour (`result`, where
  `Except.ok none` is the implicit `return None` of falling off the loop),
  the number of invocations of `func`, the `logging.warning` and
  `logging.error` notices (structured records of the fields interpolated
  into the corresponding f-strings), and the `time.sleep` pauses taken.
* Generators are embedded twice: as the `List` of all elements they yield
  (value semantics) and as explicit-state pull machines (for laziness,
  realization counting, and independence of sequence instances).
-/

/-- A Python exception value: `ConnectionError(msg)` or any other exception
class (`kind`, e.g. `"ValueError"`) with message `msg`. -/
inductive Exn where
  | connectionError (msg : String)
  | other (kind : String) (msg : String)
deriving DecidableEq, Repr

/-- The `except ConnectionError` clause catches exactly this class. -/
def Exn.isConnectionError : Exn → Bool
  | .connectionError _ => true
  | .other _ _ => false

/-- Python `str(e)`: the message interpolated as `error: {e}` in the notices. -/
def Exn.msg : Exn → String
  | .connectionError m => m
  | .other _ m => m

/-- A Python callable: its `__name__` and the outcome of its i-th invocation. -/
structure PyFunc (α : Type) where
  name : String
  call : Nat → Except Exn α

/-- The fields interpolated into the `logging.warning` f-string of the
wrapper: operation name, `attempts_left` after the decrement, `str(e)`, and
the delay about to be slept. -/
structure WarnNotice where
  opName : String
  attemptsLeft : Int
  cause : String
  delay : Rat
deriving DecidableEq, Repr

/-- The fields interpolated into the `logging.error` f-string of the
wrapper: operation name, the `max_attempts` of the policy, and `str(e)` of
the final failure. -/
structure ErrNotice where
  opName : String
  totalAttempts : Int
  cause : String
deriving DecidableEq, Repr

/-- Everything observable about one call of the wrapped function:
its Python result (`Except.error e` = raised `e`; `Except.ok none` = the
implicit `return None` when the `while` loop body never runs), the number
of invocations of `func`, the emitted notices, and the pauses taken. -/
structure WrapOutput (α : Type) where
  result : Except Exn (Option α)
  invocations : Nat
  warnings : List WarnNotice
  errors : List ErrNotice
  sleeps : List Rat
deriving Repr

/-- The `while attempts_left > 0` loop of the wrapper, as a recursion on the
remaining loop entries `fuel = attempts_left.toNat` (the guard makes the two
interchangeable: the loop is entered iff `attempts_left > 0`, and
`attempts_left` decreases by exactly 1 per entry that does not return).
`callIdx` counts the invocations of `func` made so far. -/
def wrapper (name : String) (max_attempts : Int) (delay : Rat)
    (op : Nat → Except Exn α) (callIdx : Nat) : Nat → WrapOutput α
  | 0 => ⟨.ok none, 0, [], [], []⟩
  | fuel + 1 =>
    match op callIdx with
    | .ok v => ⟨.ok (some v), 1, [], [], []⟩
    | .error e =>
      if e.isConnectionError then
        if 0 < fuel then
          let rest := wrapper name max_attempts delay op (callIdx + 1) fuel
          ⟨rest.result, rest.invocations + 1,
            ⟨name, (fuel : Int), e.msg, delay⟩ :: rest.warnings,
            rest.errors, delay :: rest.sleeps⟩
        else
          ⟨.error e, 1, [], [⟨name, max_attempts, e.msg⟩], []⟩
      else
        ⟨.error e, 1, [], [], []⟩

/-- One-step unfolding of the loop for a positive number of remaining
entries. -/
theorem wrapper_succ (name : String) (ma : Int) (d : Rat)
    (op : Nat → Except Exn α) (callIdx fuel : Nat) :
    wrapper name ma d op callIdx (fuel + 1) =
      match op callIdx with
      | .ok v => ⟨.ok (some v), 1, [], [], []⟩
      | .error e =>
        if e.isConnectionError then
          if 0 < fuel then
            ⟨(wrapper name ma d op (callIdx + 1) fuel).result,
              (wrapper name ma d op (callIdx + 1) fuel).invocations + 1,
              ⟨name, (fuel : Int), e.msg, d⟩ ::
                (wrapper name ma d op (callIdx + 1) fuel).warnings,
              (wrapper name ma d op (callIdx + 1) fuel).errors,
              d :: (wrapper name ma d op (callIdx + 1) fuel).sleeps⟩
          else ⟨.error e, 1, [], [⟨name, ma, e.msg⟩], []⟩
        else ⟨.error e, 1, [], [], []⟩ := by
  simp only [wrapper]

/-- The wrapped callable returned by the decorator: `functools.wraps` copies
`func.__name__` onto it, and `run` is the observable behaviour of calling it
(on the outcome schedule baked into `f.call`). -/
structure Wrapped (α : Type) where
  name : String
  run : WrapOutput α

/-- The `retry(max_attempts, delay)` decorator applied to `f`. -/
def retry (max_attempts : Int) (delay : Rat) (f : PyFunc α) : Wrapped α :=
  ⟨f.name, wrapper f.name max_attempts delay f.call 0 max_attempts.toNat⟩

/-- Core loop lemma: if invocations `callIdx .. callIdx+k-1` raise
`ConnectionError` and invocation `callIdx+k` returns `v`, with `k < fuel`,
the loop returns `v` after `k+1` invocations, `k` warnings, no error
notice, and `k` sleeps of `delay` each. -/
theorem wrapper_eventual_success (name : String) (ma : Int) (d : Rat)
    (op : Nat → Except Exn α) (v : α) :
    ∀ (k : Nat) (fuel callIdx : Nat), k < fuel →
    (∀ i, i < k → ∃ m, op (callIdx + i) = .error (.connectionError m)) →
    op (callIdx + k) = .ok v →
    (wrapper name ma d op callIdx fuel).result = .ok (some v) ∧
    (wrapper name ma d op callIdx fuel).invocations = k + 1 ∧
    (wrapper name ma d op callIdx fuel).warnings.length = k ∧
    (wrapper name ma d op callIdx fuel).errors = [] ∧
    (wrapper name ma d op callIdx fuel).sleeps = List.replicate k d := by
  intro k
  induction k with
  | zero =>
    intro fuel callIdx hk _ hok
    obtain ⟨fuel, rfl⟩ := Nat.exists_eq_add_of_lt hk
    simp only [Nat.add_zero] at hok
    simp [wrapper, hok]
  | succ k ih =>
    intro fuel callIdx hk hfail hok
    obtain ⟨fuel', rfl⟩ := Nat.exists_eq_add_of_lt hk
    obtain ⟨m, hm⟩ := hfail 0 (Nat.succ_pos k)
    simp only [Nat.add_zero] at hm
    have hrec := ih (k + 1 + fuel') (callIdx + 1) (by omega)
      (fun i hi => by
        obtain ⟨m', hm'⟩ := hfail (i + 1) (by omega)
        exact ⟨m', by rw [show callIdx + 1 + i = callIdx + (i + 1) from by omega]; exact hm'⟩)
      (by rw [show callIdx + 1 + k = callIdx + (k + 1) from by omega]; exact hok)
    obtain ⟨h1, h2, h3, h4, h5⟩ := hrec
    simp [wrapper, hm, Exn.isConnectionError, Nat.succ_pos, h1, h2, h3, h4, h5,
      List.replicate_succ]

/-- Core loop lemma: if every invocation raises `ConnectionError`, the loop
makes exactly `fuel` invocations, emits `fuel - 1` warnings and one error
notice naming `max_attempts`, and re-raises the exception of the last
invocation unchanged. -/
theorem wrapper_all_transient (name : String) (ma : Int) (d : Rat)
    (op : Nat → Except Exn α)
    (hall : ∀ i, ∃ m, op i = .error (.connectionError m)) :
    ∀ (fuel : Nat), 0 < fuel → ∀ (callIdx : Nat),
    ∃ m, op (callIdx + fuel - 1) = .error (.connectionError m) ∧
      (wrapper name ma d op callIdx fuel).result = .error (.connectionError m) ∧
      (wrapper name ma d op callIdx fuel).invocations = fuel ∧
      (wrapper name ma d op callIdx fuel).warnings.length = fuel - 1 ∧
      (wrapper name ma d op callIdx fuel).errors = [⟨name, ma, m⟩] ∧
      (wrapper name ma d op callIdx fuel).sleeps.length = fuel - 1 := by
  intro fuel
  induction fuel with
  | zero => intro h; omega
  | succ fuel ih =>
    intro _ callIdx
    obtain ⟨m0, hm0⟩ := hall callIdx
    cases fuel with
    | zero =>
      refine ⟨m0, ?_, ?_, ?_, ?_, ?_, ?_⟩ <;>
        simp [wrapper, hm0, Exn.isConnectionError, Exn.msg]
    | succ f =>
      obtain ⟨m, hm, h1, h2, h3, h4, h5⟩ := ih (Nat.succ_pos f) (callIdx + 1)
      refine ⟨m, ?_, ?_, ?_, ?_, ?_, ?_⟩
      · rw [show callIdx + (f + 1 + 1) - 1 = callIdx + 1 + (f + 1) - 1 from by omega]
        exact hm
      all_goals
        rw [wrapper_succ, hm0]
        simp [Exn.isConnectionError, Nat.succ_pos, h1, h2, h3, h4, h5]

/-- C1: with `max_attempts ≥ 1`, `delay ≥ 0`, and an operation raising
`ConnectionError` on exactly its first `k` invocations then returning `v`,
where `k < max_attempts`, the wrapped call returns `v` after exactly `k+1`
invocations, `k` warning notices and no error notice. -/
theorem retry_transient_then_success (ma : Int) (d : Rat) (f : PyFunc α)
    (k : Nat) (v : α)
    (hma : 1 ≤ ma) (hd : 0 ≤ d) (hk : (k : Int) < ma)
    (hfail : ∀ i, i < k → ∃ m, f.call i = .error (.connectionError m))
    (hok : f.call k = .ok v) :
    (retry ma d f).run.result = .ok (some v) ∧
    (retry ma d f).run.invocations = k + 1 ∧
    (retry ma d f).run.warnings.length = k ∧
    (retry ma d f).run.errors = [] := by
  have hlt : k < ma.toNat := by omega
  have h := wrapper_eventual_success f.name ma d f.call v k ma.toNat 0 hlt
    (fun i hi => by simpa using hfail i hi) (by simpa using hok)
  exact ⟨h.1, h.2.1, h.2.2.1, h.2.2.2.1⟩

/-- The demo operation of the source: fails with `ConnectionError("Network
down!")` while its failure counter (here: invocation index below 2) is
positive, then returns `"Success!"`. -/
def flaky_network_call : PyFunc String :=
  ⟨"flaky_network_call", fun i =>
    if i < 2 then .error (.connectionError "Network down!") else .ok "Success!"⟩

/-- Witness for C1: scenario B of the spec, `max_attempts = 3`,
`delay = 0.5`, two transient failures then success. -/
theorem retry_transient_then_success_witness :
    (retry 3 (1/2) flaky_network_call).run.result = .ok (some "Success!") ∧
    (retry 3 (1/2) flaky_network_call).run.invocations = 3 ∧
    (retry 3 (1/2) flaky_network_call).run.warnings.length = 2 ∧
    (retry 3 (1/2) flaky_network_call).run.errors = [] :=
  retry_transient_then_success 3 (1/2) flaky_network_call 2 "Success!"
    (by decide) (by norm_num) (by decide)
    (fun i hi => ⟨"Network down!", by simp [flaky_network_call, hi]⟩)
    (by simp [flaky_network_call])

/-- C2: with `max_attempts ≥ 1` and an operation raising `ConnectionError`
on every invocation, the wrapped call raises the last attempt's exception
unchanged after exactly `max_attempts` invocations, `max_attempts - 1`
warnings and exactly one error notice. -/
theorem retry_exhaustion (ma : Int) (d : Rat) (f : PyFunc α)
    (hma : 1 ≤ ma) (hd : 0 ≤ d)
    (hall : ∀ i, ∃ m, f.call i = .error (.connectionError m)) :
    ∃ m, f.call (ma.toNat - 1) = .error (.connectionError m) ∧
      (retry ma d f).run.result = .error (.connectionError m) ∧
      (retry ma d f).run.invocations = ma.toNat ∧
      (retry ma d f).run.warnings.length = ma.toNat - 1 ∧
      (retry ma d f).run.errors = [⟨f.name, ma, m⟩] ∧
      ((ma.toNat : Int) = ma) := by
  have h0 : 0 < ma.toNat := by omega
  obtain ⟨m, hm, h1, h2, h3, h4, _⟩ :=
    wrapper_all_transient f.name ma d f.call hall ma.toNat h0 0
  exact ⟨m, by simpa using hm, h1, h2, h3, h4, by omega⟩

/-- An operation that raises `ConnectionError("Network down!")` on every
invocation (failure counter never reaching zero). -/
def always_down : PyFunc String :=
  ⟨"flaky_network_call", fun _ => .error (.connectionError "Network down!")⟩

/-- Witness for C2: scenario C of the spec, `max_attempts = 3`, `delay = 0`,
every invocation fails. -/
theorem retry_exhaustion_witness :
    ∃ m, always_down.call ((3 : Int).toNat - 1) = .error (.connectionError m) ∧
      (retry 3 0 always_down).run.result = .error (.connectionError m) ∧
      (retry 3 0 always_down).run.invocations = (3 : Int).toNat ∧
      (retry 3 0 always_down).run.warnings.length = (3 : Int).toNat - 1 ∧
      (retry 3 0 always_down).run.errors = [⟨always_down.name, 3, m⟩] ∧
      (((3 : Int).toNat : Int) = 3) :=
  retry_exhaustion 3 0 always_down (by decide) (le_refl 0)
    (fun _ => ⟨"Network down!", rfl⟩)

/-- C3: an exception that is not `ConnectionError` is not caught: it
propagates from the first invocation, with no retry, no warning, no sleep
and no error notice. -/
theorem retry_non_transient (ma : Int) (d : Rat) (f : PyFunc α) (e : Exn)
    (hma : 1 ≤ ma) (he : e.isConnectionError = false)
    (h0 : f.call 0 = .error e) :
    (retry ma d f).run.result = .error e ∧
    (retry ma d f).run.invocations = 1 ∧
    (retry ma d f).run.warnings = [] ∧
    (retry ma d f).run.sleeps = [] ∧
    (retry ma d f).run.errors = [] := by
  obtain ⟨t, ht⟩ : ∃ t, ma.toNat = t + 1 := ⟨ma.toNat - 1, by omega⟩
  simp [retry, ht, wrapper, h0, he]

/-- An operation raising a non-transient `ValueError` on its first
invocation. -/
def bad_value_call : PyFunc String :=
  ⟨"bad_value_call", fun _ => .error (.other "ValueError" "bad input")⟩

/-- Witness for C3 at `max_attempts = 3`, `delay = 0.5`. -/
theorem retry_non_transient_witness :
    (retry 3 (1/2) bad_value_call).run.result = .error (.other "ValueError" "bad input") ∧
    (retry 3 (1/2) bad_value_call).run.invocations = 1 ∧
    (retry 3 (1/2) bad_value_call).run.warnings = [] ∧
    (retry 3 (1/2) bad_value_call).run.sleeps = [] ∧
    (retry 3 (1/2) bad_value_call).run.errors = [] :=
  retry_non_transient 3 (1/2) bad_value_call (.other "ValueError" "bad input")
    (by decide) rfl rfl

/-- C9: with `max_attempts ≤ 0` the loop guard `attempts_left > 0` fails
immediately: the wrapped call returns `None` without invoking the operation
and without emitting any notice. -/
theorem retry_nonpositive_attempts (ma : Int) (d : Rat) (f : PyFunc α)
    (hma : ma ≤ 0) :
    (retry ma d f).run.result = .ok none ∧
    (retry ma d f).run.invocations = 0 ∧
    (retry ma d f).run.warnings = [] ∧
    (retry ma d f).run.errors = [] ∧
    (retry ma d f).run.sleeps = [] := by
  have ht : ma.toNat = 0 := by omega
  simp [retry, ht, wrapper]

/-- Every warning notice the loop emits carries the wrapped operation's
name, the delay about to be slept, a positive remaining-attempts count
below the entry fuel, and the message of an actual `ConnectionError` raised
by some invocation. -/
theorem wrapper_warning_mem (name : String) (ma : Int) (d : Rat)
    (op : Nat → Except Exn α) :
    ∀ (fuel callIdx : Nat) (w : WarnNotice),
    w ∈ (wrapper name ma d op callIdx fuel).warnings →
    w.opName = name ∧ w.delay = d ∧ 0 < w.attemptsLeft ∧
      w.attemptsLeft < (fuel : Int) ∧
      ∃ j, op j = .error (.connectionError w.cause) := by
  intro fuel
  induction fuel with
  | zero => intro callIdx w hw; simp [wrapper] at hw
  | succ fuel ih =>
    intro callIdx w hw
    rw [wrapper_succ] at hw
    cases hcall : op callIdx with
    | ok v => rw [hcall] at hw; simp at hw
    | error e =>
      rw [hcall] at hw
      cases e with
      | other kind msg => simp [Exn.isConnectionError] at hw
      | connectionError m =>
        by_cases hf : 0 < fuel
        · simp [Exn.isConnectionError, hf] at hw
          rcases hw with rfl | hw
          · refine ⟨rfl, rfl, ?_, ?_, callIdx, ?_⟩
            · show (0 : Int) < (fuel : Int)
              exact_mod_cast hf
            · show (fuel : Int) < ((fuel + 1 : Nat) : Int)
              exact_mod_cast Nat.lt_succ_self fuel
            · rw [hcall]
              simp [Exn.msg]
          · obtain ⟨ha, hb, hc, hde, he⟩ := ih (callIdx + 1) w hw
            exact ⟨ha, hb, hc, by push_cast at hde ⊢; omega, he⟩
        · simp [Exn.isConnectionError, hf] at hw

/-- Every error notice the loop emits carries the wrapped operation's name,
the policy's `max_attempts`, and the message of the final
`ConnectionError`, which the call also re-raises unchanged. -/
theorem wrapper_error_mem (name : String) (ma : Int) (d : Rat)
    (op : Nat → Except Exn α) :
    ∀ (fuel callIdx : Nat) (en : ErrNotice),
    en ∈ (wrapper name ma d op callIdx fuel).errors →
    en.opName = name ∧ en.totalAttempts = ma ∧
      ∃ j, op j = .error (.connectionError en.cause) ∧
        (wrapper name ma d op callIdx fuel).result =
          .error (.connectionError en.cause) := by
  intro fuel
  induction fuel with
  | zero => intro callIdx en hw; simp [wrapper] at hw
  | succ fuel ih =>
    intro callIdx en hw
    rw [wrapper_succ] at hw
    cases hcall : op callIdx with
    | ok v => rw [hcall] at hw; simp at hw
    | error e =>
      rw [hcall] at hw
      cases e with
      | other kind msg => simp [Exn.isConnectionError] at hw
      | connectionError m =>
        by_cases hf : 0 < fuel
        · simp [Exn.isConnectionError, hf] at hw
          obtain ⟨ha, hb, j, hj, hres⟩ := ih (callIdx + 1) en hw
          refine ⟨ha, hb, j, hj, ?_⟩
          rw [wrapper_succ, hcall]
          simpa [Exn.isConnectionError, hf] using hres
        · simp [Exn.isConnectionError, hf] at hw
          subst hw
          refine ⟨rfl, rfl, callIdx, by rw [hcall, Exn.msg], ?_⟩
          rw [wrapper_succ, hcall]
          simp [Exn.isConnectionError, hf, Exn.msg]

/-- C8: the wrapped callable keeps the operation's `__name__`
(`functools.wraps`); each warning notice names the operation, the attempts
remaining (positive and below `max_attempts`), the cause of an actual
transient failure, and the delay about to be slept; each error notice names
the operation, the policy's total `max_attempts`, and the final failure
cause, which is exactly the exception the call re-raises. The wrapper
emits no other notice shapes. -/
theorem retry_notice_shape (ma : Int) (d : Rat) (f : PyFunc α) :
    (retry ma d f).name = f.name ∧
    (∀ w ∈ (retry ma d f).run.warnings, w.opName = f.name ∧ w.delay = d ∧
      0 < w.attemptsLeft ∧ w.attemptsLeft < ma ∧
      ∃ j, f.call j = .error (.connectionError w.cause)) ∧
    (∀ en ∈ (retry ma d f).run.errors, en.opName = f.name ∧
      en.totalAttempts = ma ∧
      ∃ j, f.call j = .error (.connectionError en.cause) ∧
        (retry ma d f).run.result = .error (.connectionError en.cause)) := by
  refine ⟨rfl, ?_, ?_⟩
  · intro w hw
    obtain ⟨ha, hb, hc, hde, he⟩ :=
      wrapper_warning_mem f.name ma d f.call ma.toNat 0 w hw
    exact ⟨ha, hb, hc, by omega, he⟩
  · intro en hen
    exact wrapper_error_mem f.name ma d f.call ma.toNat 0 en hen

/-- Witness for C8: the always-failing operation at `max_attempts = 2`,
`delay = 0` emits the warning `⟨name, 1, cause, 0⟩` and the error
`⟨name, 2, cause⟩`, and both satisfy the shape facts. -/
theorem retry_notice_shape_witness :
    ((⟨"flaky_network_call", 1, "Network down!", 0⟩ : WarnNotice).opName =
        always_down.name ∧
      (⟨"flaky_network_call", 1, "Network down!", 0⟩ : WarnNotice).delay = 0 ∧
      0 < (⟨"flaky_network_call", 1, "Network down!", 0⟩ : WarnNotice).attemptsLeft ∧
      (⟨"flaky_network_call", 1, "Network down!", 0⟩ : WarnNotice).attemptsLeft < 2 ∧
      ∃ j, always_down.call j = .error (.connectionError
        (⟨"flaky_network_call", 1, "Network down!", 0⟩ : WarnNotice).cause)) ∧
    ((⟨"flaky_network_call", 2, "Network down!"⟩ : ErrNotice).opName =
        always_down.name ∧
      (⟨"flaky_network_call", 2, "Network down!"⟩ : ErrNotice).totalAttempts = 2 ∧
      ∃ j, always_down.call j = .error (.connectionError
        (⟨"flaky_network_call", 2, "Network down!"⟩ : ErrNotice).cause) ∧
        (retry 2 0 always_down).run.result = .error (.connectionError
          (⟨"flaky_network_call", 2, "Network down!"⟩ : ErrNotice).cause)) :=
  ⟨(retry_notice_shape 2 0 always_down).2.1
      ⟨"flaky_network_call", 1, "Network down!", 0⟩ (by decide),
    (retry_notice_shape 2 0 always_down).2.2
      ⟨"flaky_network_call", 2, "Network down!"⟩ (by decide)⟩

/-- Witness for C9 at `max_attempts = 0` on an operation that would
succeed on its first invocation if it were ever called. -/
theorem retry_nonpositive_attempts_witness :
    (retry 0 1 flaky_network_call).run.result = .ok none ∧
    (retry 0 1 flaky_network_call).run.invocations = 0 ∧
    (retry 0 1 flaky_network_call).run.warnings = [] ∧
    (retry 0 1 flaky_network_call).run.errors = [] ∧
    (retry 0 1 flaky_network_call).run.sleeps = [] :=
  retry_nonpositive_attempts 0 1 flaky_network_call (le_refl 0)

/-- Python substring containment `needle in hay` over character lists: true
iff `needle` occurs starting at some position of `hay`. -/
def strContains (needle : List Char) : List Char → Bool
  | [] => needle.isEmpty
  | c :: cs => needle.isPrefixOf (c :: cs) || strContains needle cs

/-- Python `needle in hay` on strings. -/
def pyIn (needle hay : String) : Bool := strContains needle.data hay.data

/-- Occurrence characterization of `strContains`. -/
theorem strContains_iff (needle : List Char) :
    ∀ hay, strContains needle hay = true ↔
      ∃ pre post, hay = pre ++ needle ++ post := by
  intro hay
  induction hay with
  | nil =>
    simp only [strContains, List.isEmpty_iff]
    constructor
    · rintro rfl; exact ⟨[], [], rfl⟩
    · rintro ⟨pre, post, h⟩
      have h2 := List.append_eq_nil.mp h.symm
      exact (List.append_eq_nil.mp h2.1).2
  | cons c cs ih =>
    simp only [strContains, Bool.or_eq_true, ih, List.isPrefixOf_iff_prefix]
    constructor
    · rintro (⟨t, ht⟩ | ⟨pre, post, rfl⟩)
      · exact ⟨[], t, by simp [← ht]⟩
      · exact ⟨c :: pre, post, by simp⟩
    · rintro ⟨pre, post, h⟩
      cases pre with
      | nil => exact Or.inl ⟨post, by simpa using h.symm⟩
      | cons p ps =>
        simp only [List.cons_append, List.cons.injEq] at h
        exact Or.inr ⟨ps, post, h.2⟩

/-- Occurrence characterization of Python `in` on strings. -/
theorem pyIn_iff (needle hay : String) :
    pyIn needle hay = true ↔
      ∃ pre post, hay.data = pre ++ needle.data ++ post :=
  strContains_iff _ _

/-- The line yielded by `read_large_file` for index `i`:
`f"logline {i} - status=OK"`. -/
def logline (i : Nat) : String := "logline " ++ toString i ++ " - status=OK"

/-- Value semantics of the `read_large_file` generator: the list of all
lines it yields, in yield order. -/
def read_large_file (num_lines : Nat) : List String :=
  (List.range num_lines).map logline

/-- Value semantics of the `filter_logs` generator: translation of its
`for`/`if` loop. The guard is `f"status={status}" in line`. -/
def filter_logs (lines : List String) (status : String) : List String :=
  match lines with
  | [] => []
  | line :: rest =>
    if pyIn ("status=" ++ status) line then line :: filter_logs rest status
    else filter_logs rest status

/-- Value semantics of the `search_logs` generator: translation of its
`for`/`if` loop. The guard is `needle in line`. -/
def search_logs (lines : List String) (needle : String) : List String :=
  match lines with
  | [] => []
  | line :: rest =>
    if pyIn needle line then line :: search_logs rest needle
    else search_logs rest needle

/-- The suspended state of a `read_large_file` generator: the loop index it
will resume at, and the bound it was created with. This is exactly the
state Python freezes at the `yield`. -/
structure ReadGen where
  i : Nat
  num_lines : Nat
deriving DecidableEq, Repr

/-- Calling `read_large_file(num_lines)` creates a fresh generator whose
loop index starts at 0; no state is shared with any other generator. -/
def mkRead (num_lines : Nat) : ReadGen := ⟨0, num_lines⟩

/-- One `next()` on the source generator: yields the next line and the
resumed state, or `none` for `StopIteration`. -/
def readNext (s : ReadGen) : Option (String × ReadGen) :=
  if s.i < s.num_lines then some (logline s.i, ⟨s.i + 1, s.num_lines⟩)
  else none

/-- Pull up to `k` elements from a source generator state. -/
def readTake : ReadGen → Nat → List String
  | _, 0 => []
  | s, k + 1 =>
    match readNext s with
    | none => []
    | some (x, s') => x :: readTake s' k

/-- Pulling from a source generator state yields the tail of the stream
from its current index. -/
theorem readTake_eq : ∀ (k i n : Nat),
    readTake ⟨i, n⟩ k = ((List.range' i (n - i)).map logline).take k := by
  intro k
  induction k with
  | zero => intro i n; simp [readTake]
  | succ k ih =>
    intro i n
    by_cases h : i < n
    · have hm1 : n - i = (n - (i + 1)) + 1 := by omega
      simp [readTake, readNext, h, hm1, List.range'_succ, ih]
    · have hm0 : n - i = 0 := by omega
      simp [readTake, readNext, h, hm0]

/-- Every line of the source stream is a `logline`. -/
theorem mem_read_large_file (N : Nat) (l : String)
    (h : l ∈ read_large_file N) : ∃ i, i < N ∧ l = logline i := by
  obtain ⟨i, hi, rfl⟩ := List.mem_map.mp h
  exact ⟨i, List.mem_range.mp hi, rfl⟩

/-- The `filter_logs` loop is `List.filter` with the substring guard. -/
theorem filter_logs_eq_filter (status : String) :
    ∀ lines, filter_logs lines status =
      lines.filter (fun l => pyIn ("status=" ++ status) l) := by
  intro lines
  induction lines with
  | nil => rfl
  | cons line rest ih =>
    by_cases h : pyIn ("status=" ++ status) line
    · simp [filter_logs, h, ih, List.filter_cons]
    · simp [filter_logs, h, ih, List.filter_cons]

/-- The `search_logs` loop is `List.filter` with the needle guard. -/
theorem search_logs_eq_filter (needle : String) :
    ∀ lines, search_logs lines needle =
      lines.filter (fun l => pyIn needle l) := by
  intro lines
  induction lines with
  | nil => rfl
  | cons line rest ih =>
    by_cases h : pyIn needle line
    · simp [search_logs, h, ih, List.filter_cons]
    · simp [search_logs, h, ih, List.filter_cons]

/-- Any status that is a prefix of `"OK"` makes `f"status={status}"` a
substring of every produced log line, because each line ends in
`"status=OK"`. -/
theorem pyIn_status_logline (status : String) (i : Nat)
    (h : status.data <+: "OK".data) :
    pyIn ("status=" ++ status) (logline i) = true := by
  obtain ⟨t, ht⟩ := h
  rw [pyIn_iff]
  refine ⟨"logline ".data ++ (toString i).data ++ " - ".data, t, ?_⟩
  have hconst : (" - status=OK").data =
      " - ".data ++ "status=".data ++ "OK".data := by decide
  have hsplit : ("status=" ++ status).data = "status=".data ++ status.data := by
    simp
  rw [hsplit]
  show ("logline " ++ toString i ++ " - status=OK").data = _
  simp only [String.data_append, hconst, ← ht, List.append_assoc]
  rw [ht]
  simp

/-- C4: `read_large_file(N)` yields exactly `N` records, the i-th being the
line of index `i` (indices `0..N-1` in increasing order); and a generator
created by a call of `read_large_file` is an independent sequence: its pull
behaviour (`readTake` on the fresh state `mkRead N`) is a pure function of
its own state, which starts at index 0 for every call, so consuming another
generator cannot affect the elements or position of this one — there is no
shared counter or buffer. -/
theorem read_large_file_independent_sequences (N : Nat) :
    (read_large_file N).length = N ∧
    (∀ (i : Nat) (h : i < (read_large_file N).length),
      (read_large_file N).get ⟨i, h⟩ = logline i) ∧
    (∀ k, readTake (mkRead N) k = (read_large_file N).take k) := by
  refine ⟨by simp [read_large_file], ?_, ?_⟩
  · intro i h
    simp [read_large_file]
  · intro k
    rw [show mkRead N = (⟨0, N⟩ : ReadGen) from rfl, readTake_eq]
    simp [read_large_file, List.range_eq_range']

/-- Witness for C4 at `N = 3`, `i = 1`, `k = 2`. -/
theorem read_large_file_independent_sequences_witness :
    (read_large_file 3).length = 3 ∧
    (read_large_file 3).get ⟨1, by decide⟩ = logline 1 ∧
    readTake (mkRead 3) 2 = (read_large_file 3).take 2 :=
  ⟨(read_large_file_independent_sequences 3).1,
    (read_large_file_independent_sequences 3).2.1 1 (by decide),
    (read_large_file_independent_sequences 3).2.2 2⟩

/-- One `next()` on a filtering generator (`filter_logs` / `search_logs`)
holding the not-yet-realized upstream suffix: scans upstream until the
predicate matches. Returns the yielded element with the upstream remainder
(or `none` at upstream exhaustion), paired with the number of upstream
elements realized during this pull. -/
def filterPull (p : α → Bool) : List α → Option (α × List α) × Nat
  | [] => (none, 0)
  | x :: xs =>
    if p x then (some (x, xs), 1)
    else ((filterPull p xs).1, (filterPull p xs).2 + 1)

/-- Pull up to `j` elements from a filtering generator: the yielded
outputs, the not-yet-realized upstream suffix, and the total number of
upstream elements realized. -/
def filterTake (p : α → Bool) : List α → Nat → List α × List α × Nat
  | up, 0 => ([], up, 0)
  | up, j + 1 =>
    match filterPull p up with
    | (none, n) => ([], [], n)
    | (some (x, rest), n) =>
      (x :: (filterTake p rest j).1, (filterTake p rest j).2.1,
        n + (filterTake p rest j).2.2)

/-- An exhausting pull realized the whole upstream, none of which matches. -/
theorem filterPull_none (p : α → Bool) :
    ∀ up : List α, (filterPull p up).1 = none →
      (filterPull p up).2 = up.length ∧ up.filter p = [] := by
  intro up
  induction up with
  | nil => intro _; simp [filterPull]
  | cons x xs ih =>
    intro h
    by_cases hx : p x
    · simp [filterPull, hx] at h
    · simp only [filterPull, hx, if_false, Bool.false_eq_true] at h ⊢
      obtain ⟨h1, h2⟩ := ih h
      simp [h1, h2, List.filter_cons, hx]

/-- A successful pull realizes exactly the elements up to and including the
first match: the match is the last realized element, everything realized
before it fails the predicate, and the remainder is the unrealized
upstream suffix. -/
theorem filterPull_some (p : α → Bool) :
    ∀ (up : List α) (x : α) (rest : List α),
    (filterPull p up).1 = some (x, rest) →
    0 < (filterPull p up).2 ∧ (filterPull p up).2 ≤ up.length ∧
    p x = true ∧
    (up.take (filterPull p up).2).filter p = [x] ∧
    rest = up.drop (filterPull p up).2 ∧
    (∀ m, m < (filterPull p up).2 → (up.take m).filter p = []) := by
  intro up
  induction up with
  | nil => intro x rest h; simp [filterPull] at h
  | cons y ys ih =>
    intro x rest h
    by_cases hy : p y
    · have hp : filterPull p (y :: ys) = (some (y, ys), 1) := by
        simp [filterPull, hy]
      rw [hp] at h
      simp only [Option.some.injEq, Prod.mk.injEq] at h
      obtain ⟨rfl, rfl⟩ := h
      rw [hp]
      refine ⟨Nat.one_pos, by simp, hy, ?_, ?_, ?_⟩
      · simp [List.filter_cons, hy]
      · simp
      · intro m hm
        simp only [Nat.lt_one_iff] at hm
        subst hm
        simp
    · simp only [filterPull, hy, if_false, Bool.false_eq_true] at h ⊢
      obtain ⟨hpos, hle, hpx, htake, hrest, hmin⟩ := ih x rest h
      obtain ⟨n, hn⟩ : ∃ n, (filterPull p ys).2 = n := ⟨_, rfl⟩
      rw [hn] at hpos hle htake hrest hmin ⊢
      refine ⟨Nat.succ_pos n, by simpa using Nat.succ_le_succ hle, hpx, ?_, ?_, ?_⟩
      · simpa [List.filter_cons, hy] using htake
      · simpa using hrest
      · intro m hm
        cases m with
        | zero => simp
        | succ m' =>
          have := hmin m' (by omega)
          simpa [List.filter_cons, hy] using this

/-- Realization invariant of a filtering generator: after any number of
pulls the yielded outputs are exactly the matches among the realized
prefix of upstream (so no realized match is ever held unconsumed), the
held state is the unrealized upstream suffix, realization never exceeds
upstream length, and realization is minimal: any strictly shorter
realized prefix would contain fewer matches than the number of pulls
requested. -/
theorem filterTake_spec (p : α → Bool) :
    ∀ (j : Nat) (up : List α),
    (filterTake p up j).1 = (up.take (filterTake p up j).2.2).filter p ∧
    (filterTake p up j).2.1 = up.drop (filterTake p up j).2.2 ∧
    (filterTake p up j).2.2 ≤ up.length ∧
    (filterTake p up j).1.length ≤ j ∧
    (∀ m, m < (filterTake p up j).2.2 →
      ((up.take m).filter p).length < j) := by
  intro j
  induction j with
  | zero => intro up; simp [filterTake]
  | succ j ih =>
    intro up
    rcases hq : filterPull p up with ⟨o, n⟩
    cases o with
    | none =>
      have h1 : (filterPull p up).1 = none := by rw [hq]
      have h2 : (filterPull p up).2 = n := by rw [hq]
      obtain ⟨hn, hf⟩ := filterPull_none p up h1
      rw [h2] at hn
      have ht : filterTake p up (j + 1) = ([], [], n) := by
        simp only [filterTake, hq]
      rw [ht]
      refine ⟨?_, ?_, ?_, ?_, ?_⟩
      · rw [show ((([] : List α), ([] : List α), n)).2.2 = n from rfl, hn,
          List.take_length, hf]
      · rw [show ((([] : List α), ([] : List α), n)).2.2 = n from rfl, hn,
          List.drop_length]
      · exact hn.le
      · simp
      · intro m _
        have hsub : List.Sublist ((up.take m).filter p) (up.filter p) :=
          (List.take_sublist m up).filter p
        rw [hf] at hsub
        simp [List.sublist_nil.mp hsub]
    | some v =>
      rcases v with ⟨x, rest⟩
      have h1 : (filterPull p up).1 = some (x, rest) := by rw [hq]
      have h2 : (filterPull p up).2 = n := by rw [hq]
      obtain ⟨hpos, hle, hpx, htake, hrest, hmin⟩ := filterPull_some p up x rest h1
      rw [h2] at hpos hle htake hrest hmin
      obtain ⟨i1, i2, i3, i4, i5⟩ := ih rest
      have ht : filterTake p up (j + 1) =
          (x :: (filterTake p rest j).1, (filterTake p rest j).2.1,
            n + (filterTake p rest j).2.2) := by
        simp only [filterTake, hq]
      rw [ht]
      refine ⟨?_, ?_, ?_, ?_, ?_⟩
      · show x :: (filterTake p rest j).1 =
          (up.take (n + (filterTake p rest j).2.2)).filter p
        rw [List.take_add, List.filter_append, htake, ← hrest, ← i1]
        rfl
      · show (filterTake p rest j).2.1 =
          up.drop (n + (filterTake p rest j).2.2)
        rw [i2, hrest, List.drop_drop]
      · show n + (filterTake p rest j).2.2 ≤ up.length
        have hrl : rest.length = up.length - n := by
          rw [hrest, List.length_drop]
        omega
      · show (x :: (filterTake p rest j).1).length ≤ j + 1
        simpa using i4
      · intro m hm
        show ((up.take m).filter p).length < j + 1
        by_cases hmn : m < n
        · rw [hmin m hmn]
          simp
        · obtain ⟨m', rfl⟩ : ∃ m', m = n + m' := ⟨m - n, by omega⟩
          have hm' : m' < (filterTake p rest j).2.2 := by
            simp only [show (x :: (filterTake p rest j).1,
              (filterTake p rest j).2.1,
              n + (filterTake p rest j).2.2).2.2 =
                n + (filterTake p rest j).2.2 from rfl] at hm
            omega
          rw [List.take_add, List.filter_append, htake, ← hrest]
          have := i5 m' hm'
          simp only [List.length_append, List.length_cons, List.length_nil]
          omega

/-- When every upstream element matches, `j` pulls yield the first `j`
elements and realize exactly `min j (up.length)` of upstream. -/
theorem filterTake_all_match (p : α → Bool) :
    ∀ (j : Nat) (up : List α), (∀ x ∈ up, p x = true) →
    (filterTake p up j).1 = up.take j ∧
    (filterTake p up j).2.2 = min j up.length := by
  intro j
  induction j with
  | zero => intro up _; simp [filterTake]
  | succ j ih =>
    intro up hall
    cases up with
    | nil => simp [filterTake, filterPull]
    | cons x xs =>
      have hx : p x = true := hall x (List.mem_cons_self x xs)
      have hq : filterPull p (x :: xs) = (some (x, xs), 1) := by
        simp [filterPull, hx]
      have ht : filterTake p (x :: xs) (j + 1) =
          (x :: (filterTake p xs j).1, (filterTake p xs j).2.1,
            1 + (filterTake p xs j).2.2) := by
        simp only [filterTake, hq]
      obtain ⟨j1, j2⟩ := ih xs (fun y hy => hall y (List.mem_cons_of_mem x hy))
      rw [ht]
      refine ⟨?_, ?_⟩
      · show x :: (filterTake p xs j).1 = (x :: xs).take (j + 1)
        rw [j1, List.take_succ_cons]
      · show 1 + (filterTake p xs j).2.2 = min (j + 1) (x :: xs).length
        rw [j2, List.length_cons]
        omega

/-- With enough pulls, a filtering generator drains to exactly the matching
elements of upstream, in upstream order. -/
theorem filterTake_drain (p : α → Bool) :
    ∀ (j : Nat) (up : List α), (up.filter p).length ≤ j →
    (filterTake p up j).1 = up.filter p := by
  intro j
  induction j with
  | zero =>
    intro up h
    simp only [Nat.le_zero, List.length_eq_zero] at h
    simp [filterTake, h]
  | succ j ih =>
    intro up h
    rcases hq : filterPull p up with ⟨o, n⟩
    cases o with
    | none =>
      have h1 : (filterPull p up).1 = none := by rw [hq]
      obtain ⟨-, hf⟩ := filterPull_none p up h1
      have ht : filterTake p up (j + 1) = ([], [], n) := by
        simp only [filterTake, hq]
      rw [ht, hf]
    | some v =>
      rcases v with ⟨x, rest⟩
      have h1 : (filterPull p up).1 = some (x, rest) := by rw [hq]
      have h2 : (filterPull p up).2 = n := by rw [hq]
      obtain ⟨-, -, -, htake, hrest, -⟩ := filterPull_some p up x rest h1
      rw [h2] at htake hrest
      have hup : up.filter p = x :: rest.filter p := by
        conv =>
          lhs
          rw [← List.take_append_drop n up]
        rw [List.filter_append, htake, ← hrest]
        rfl
      have ht : filterTake p up (j + 1) =
          (x :: (filterTake p rest j).1, (filterTake p rest j).2.1,
            n + (filterTake p rest j).2.2) := by
        simp only [filterTake, hq]
      rw [ht, hup]
      have hlen : (rest.filter p).length ≤ j := by
        rw [hup] at h
        simpa using h
      show x :: (filterTake p rest j).1 = x :: rest.filter p
      rw [ih rest hlen]

/-- C5: each filtering stage yields exactly the upstream records for which
its guard holds, as a sublist of upstream (same relative order, no
duplication, no reordering); and the composed pipeline over the source is
a map of `logline` over a strictly increasing list of indices, so a single
consumer observes records in strictly increasing index order. -/
theorem filter_stage_order_preserving :
    (∀ (lines : List String) (status : String),
      filter_logs lines status =
        lines.filter (fun l => pyIn ("status=" ++ status) l) ∧
      List.Sublist (filter_logs lines status) lines) ∧
    (∀ (lines : List String) (needle : String),
      search_logs lines needle = lines.filter (fun l => pyIn needle l) ∧
      List.Sublist (search_logs lines needle) lines) ∧
    (∀ (N : Nat) (needle status : String), ∃ idxs : List Nat,
      List.Pairwise (· < ·) idxs ∧
      filter_logs (search_logs (read_large_file N) needle) status =
        idxs.map logline) := by
  refine ⟨?_, ?_, ?_⟩
  · intro lines status
    rw [filter_logs_eq_filter]
    exact ⟨rfl, List.filter_sublist lines⟩
  · intro lines needle
    rw [search_logs_eq_filter]
    exact ⟨rfl, List.filter_sublist lines⟩
  · intro N needle status
    refine ⟨(List.range N).filter
      (fun i => pyIn ("status=" ++ status) (logline i) && pyIn needle (logline i)),
      (List.pairwise_lt_range N).filter _, ?_⟩
    rw [filter_logs_eq_filter, search_logs_eq_filter, read_large_file,
      List.filter_map, List.filter_map, List.filter_filter]
    rfl

/-- C6: a filtering stage has bounded lookahead: its outputs after any
number of pulls are exactly the matches among the realized upstream
prefix (no realized match is held back, and every realized non-output
failed the predicate), realization is minimal (any shorter prefix holds
fewer matches than pulls requested, so producing the j-th output realizes
upstream at most up to the j-th match), and concretely, consuming 5
results of the status filter over `read_large_file(1_000_000)` realizes
exactly 5 upstream elements, never the full million. -/
theorem filter_stage_bounded_lookahead :
    (∀ (p : String → Bool) (up : List String) (j : Nat),
      (filterTake p up j).1 = (up.take (filterTake p up j).2.2).filter p ∧
      (filterTake p up j).2.1 = up.drop (filterTake p up j).2.2 ∧
      (filterTake p up j).2.2 ≤ up.length ∧
      (∀ m, m < (filterTake p up j).2.2 →
        ((up.take m).filter p).length < j)) ∧
    ((filterTake (fun l => pyIn ("status=" ++ "OK") l)
        (read_large_file 1000000) 5).2.2 = 5 ∧
      (5 : Nat) < 1000000) := by
  constructor
  · intro p up j
    obtain ⟨a, b, c, -, e⟩ := filterTake_spec p j up
    exact ⟨a, b, c, e⟩
  · constructor
    · have hall : ∀ l ∈ read_large_file 1000000,
          (fun l => pyIn ("status=" ++ "OK") l) l = true := by
        intro l hl
        obtain ⟨i, -, rfl⟩ := mem_read_large_file _ _ hl
        exact pyIn_status_logline "OK" i ⟨[], List.append_nil _⟩
      rw [(filterTake_all_match _ 5 (read_large_file 1000000) hall).2]
      have hlen : (read_large_file 1000000).length = 1000000 := by
        simp [read_large_file]
      rw [hlen]
      exact min_eq_left (by norm_num)
    · omega

/-- Witness for C6: the minimality clause of the invariant at a concrete
pipeline — realizing fewer elements than the two pulls realized leaves
fewer than two matches. -/
theorem filter_stage_bounded_lookahead_witness :
    ((((read_large_file 3).take 1).filter
        (fun l => pyIn ("status=" ++ "OK") l)).length) < 2 :=
  (filter_stage_bounded_lookahead.1 (fun l => pyIn ("status=" ++ "OK") l)
    (read_large_file 3) 2).2.2.2 1 (by decide)

/-- C7: composition of stages is associative in effect: grouping the
chained stage functions in any way yields the same output sequence as the
nested application, and the operational pull-machine execution of a
filtering stage drains to exactly the same sequence as its value
semantics. -/
theorem pipeline_composition_in_effect :
    (∀ (N : Nat) (needle status : String),
      ((fun ls => filter_logs ls status) ∘ (fun ls => search_logs ls needle))
          (read_large_file N) =
        filter_logs (search_logs (read_large_file N) needle) status) ∧
    (∀ (ls : List String) (n1 n2 status : String),
      (((fun ls => filter_logs ls status) ∘ (fun ls => search_logs ls n2)) ∘
          (fun ls => search_logs ls n1)) ls =
        ((fun ls => filter_logs ls status) ∘ ((fun ls => search_logs ls n2) ∘
          (fun ls => search_logs ls n1))) ls ∧
      (((fun ls => filter_logs ls status) ∘ (fun ls => search_logs ls n2)) ∘
          (fun ls => search_logs ls n1)) ls =
        filter_logs (search_logs (search_logs ls n1) n2) status) ∧
    (∀ (up : List String) (status : String),
      (filterTake (fun l => pyIn ("status=" ++ status) l) up up.length).1 =
        filter_logs up status) := by
  refine ⟨fun N needle status => rfl, fun ls n1 n2 status => ⟨rfl, rfl⟩, ?_⟩
  intro up status
  rw [filter_logs_eq_filter]
  exact filterTake_drain _ up.length up (List.length_filter_le _ _)

/-- C10: the guard of `filter_logs` is substring containment, not field
equality: a line passes iff `"status=" + status` occurs anywhere in it;
consequently over the produced lines (which all end in `"status=OK"`),
any `status` that is a prefix of `"OK"` — `"OK"` itself, `"O"`, or the
empty string — keeps every line. -/
theorem filter_logs_substring_not_equality :
    (∀ (needle hay : String), pyIn needle hay = true ↔
      ∃ pre post, hay.data = pre ++ needle.data ++ post) ∧
    (∀ (lines : List String) (status l : String),
      l ∈ filter_logs lines status ↔
        l ∈ lines ∧ pyIn ("status=" ++ status) l = true) ∧
    (∀ (N : Nat) (status : String), status.data <+: "OK".data →
      filter_logs (read_large_file N) status = read_large_file N) := by
  refine ⟨pyIn_iff, ?_, ?_⟩
  · intro lines status l
    rw [filter_logs_eq_filter]
    simp
  · intro N status h
    rw [filter_logs_eq_filter, List.filter_eq_self]
    intro l hl
    obtain ⟨i, -, rfl⟩ := mem_read_large_file N l hl
    exact pyIn_status_logline status i h

/-- Witness for C10: the strict prefix `"O"` of `"OK"` already keeps every
produced line. -/
theorem filter_logs_substring_not_equality_witness :
    filter_logs (read_large_file 2) "O" = read_large_file 2 :=
  filter_logs_substring_not_equality.2.2 2 "O" ⟨['K'], by decide⟩
